import Mathlib

/-!
Verification development for the pfda-vscode remote-filesystem engine.

The definitions below are shallow embeddings of the TypeScript source:
* `src/src/pfdaCli.ts` — process adapter (`callPfdaCli`), upload pipeline
  (`_uploadFilesInternal`), recursive remote deletion
  (`_deleteRemoteDirectoryInternal`);
* `src/src/services/dragAndDropController.ts` — `handleDrop`;
* the tree data provider (`getChildren`, `getParent`,
  `_buildNodesFromListing`) and file-operation services.

Node's `path.posix` helpers (`join`, `normalize`, `dirname`, `basename`,
`extname`) and the JavaScript string primitives used by the source
(`startsWith`, truthiness, `trim`) are modelled on `List Char` below.
-/

namespace Pfda

/-! ### Character-list path primitives (model of Node `path.posix`) -/

/-- Split a character list on `'/'`, keeping empty segments
(model of `p.split('/')`). -/
def splitSlash : List Char → List (List Char)
  | [] => [[]]
  | c :: cs =>
    let r := splitSlash cs
    if c = '/' then [] :: r
    else (c :: r.headD []) :: r.tail

/-- Join segments with `'/'` separators (inverse of `splitSlash`). -/
def joinSegs : List (List Char) → List Char
  | [] => []
  | [s] => s
  | s :: rest => s ++ '/' :: joinSegs rest

/-- Split at the last occurrence of `ch`: returns `(before, after)` with
`ch ∉ after`, or `none` when `ch` does not occur. -/
def splitLastChar (ch : Char) : List Char → Option (List Char × List Char)
  | [] => none
  | c :: cs =>
    match splitLastChar ch cs with
    | some (b, t) => some (c :: b, t)
    | none => if c = ch then some ([], cs) else none

/-- The stack-based segment normalisation of Node's `normalizeString`:
drops empty and `.` segments, resolves `..` (pops, or is kept when
`allowAbove` and nothing can be popped). `acc` is the reversed stack. -/
def normAcc (allowAbove : Bool) : List (List Char) → List (List Char) → List (List Char)
  | acc, [] => acc.reverse
  | acc, s :: rest =>
    if s = [] ∨ s = ['.'] then normAcc allowAbove acc rest
    else if s = ['.', '.'] then
      match acc with
      | t :: acc' =>
        if t = ['.', '.'] then normAcc allowAbove (s :: acc) rest
        else normAcc allowAbove acc' rest
      | [] => if allowAbove then normAcc allowAbove [s] rest else normAcc allowAbove [] rest
    else normAcc allowAbove (s :: acc) rest

/-- Model of Node `path.posix.normalize`. -/
def normalizePath (p : String) : String :=
  match p.data with
  | [] => "."
  | c :: cs =>
    let isAbs := c = '/'
    let trail := (c :: cs).getLast? = some '/'
    let segs := normAcc (!isAbs) [] (splitSlash (c :: cs))
    let body := joinSegs segs
    if body = [] then
      (if isAbs then "/" else if trail then "./" else ".")
    else
      let body := if trail then body ++ ['/'] else body
      if isAbs then String.mk ('/' :: body) else String.mk body

/-- Model of Node `path.posix.join` with two arguments (the only arity the
source uses): empty parts are dropped, the rest joined with `'/'` and
normalised. -/
def pathJoin (a b : String) : String :=
  if a = "" then (if b = "" then "." else normalizePath b)
  else if b = "" then normalizePath a
  else normalizePath (a ++ "/" ++ b)

/-- Model of Node `path.posix.dirname`: drop trailing slashes, cut at the
last remaining slash (index 0 excluded from the scan), with the root
special cases. -/
def dirname (p : String) : String :=
  match p.data with
  | [] => "."
  | c0 :: rest =>
    let hasRoot := c0 = '/'
    let a := (rest.reverse.dropWhile (· = '/')).reverse
    match splitLastChar '/' a with
    | none => if hasRoot then "/" else "."
    | some (b, _) => if hasRoot ∧ b = [] then "//" else String.mk (c0 :: b)

/-- Model of Node `path.posix.basename`: strip trailing slashes, then take
everything after the last remaining slash. -/
def basename (p : String) : String :=
  let a := (p.data.reverse.dropWhile (· = '/')).reverse
  match splitLastChar '/' a with
  | none => String.mk a
  | some (_, t) => String.mk t

/-- Model of Node `path.posix.extname`: the suffix of the basename from its
last dot, empty when the only dot heads the basename (dotfile). -/
def extname (p : String) : String :=
  let base :=
    match splitLastChar '/' p.data with
    | none => p.data
    | some (_, t) => t
  match splitLastChar '.' base with
  | none => ""
  | some (b, t) => if b = [] then "" else String.mk ('.' :: t)

/-- Model of JavaScript `s.startsWith(pre)`. -/
def jsStartsWith (s pre : String) : Bool :=
  pre.data.isPrefixOf s.data

/-- Model of JavaScript `String.prototype.toLowerCase` (ASCII suffices for
the extensions the source handles). -/
def lowerStr (s : String) : String :=
  String.mk (s.data.map Char.toLower)

/-- Model of JavaScript `String.prototype.trim`. -/
def trimStr (s : String) : String :=
  let ws : Char → Bool := fun c => c = ' ' ∨ c = '\t' ∨ c = '\n' ∨ c = '\r'
  String.mk (((s.data.dropWhile ws).reverse.dropWhile ws).reverse)

/-- JavaScript truthiness on an optional string: `undefined` and `""` are
falsy. -/
def truthy (o : Option String) : Option String :=
  match o with
  | some s => if s = "" then none else some s
  | none => none

/-! ### Node model (`pfdaNode.ts` / `PfdaNode` in `pfdaAppExplorer.ts`) -/

/-- Embedding of the `PfdaNode` class: id, display label, full path,
directory flag, optional extension, and the optional parent back-reference
installed by `setParent`. -/
inductive PfdaNode where
  | mk (id : String) (label : String) (path : String) (isDirectory : Bool)
       (extension : Option String) (parent : Option PfdaNode)

def PfdaNode.id : PfdaNode → String
  | .mk i _ _ _ _ _ => i

def PfdaNode.label : PfdaNode → String
  | .mk _ l _ _ _ _ => l

def PfdaNode.path : PfdaNode → String
  | .mk _ _ p _ _ _ => p

def PfdaNode.isDirectory : PfdaNode → Bool
  | .mk _ _ _ d _ _ => d

def PfdaNode.extension : PfdaNode → Option String
  | .mk _ _ _ _ e _ => e

def PfdaNode.parent : PfdaNode → Option PfdaNode
  | .mk _ _ _ _ _ q => q

/-- Replace the stored parent back-reference (model of `setParent`). -/
def PfdaNode.withParent : PfdaNode → Option PfdaNode → PfdaNode
  | .mk i l p d e _, q => .mk i l p d e q

/-! ### Tree data provider (`PfdaTreeDataProvider`) -/

/-- The node cache scan of `_getNodeByPath`: the first cached node (in map
iteration order) whose `path` matches. -/
def getNodeByPath (nodes : List PfdaNode) (nodePath : String) : Option PfdaNode :=
  nodes.find? (fun n => n.path = nodePath)

/-- Embedding of `PfdaTreeDataProvider.getParent`: derive the parent path
with `path.dirname`, return `undefined` for a root element (dirname equal
to the path itself), otherwise scan the cache by path. -/
def getParent (nodes : List PfdaNode) (element : PfdaNode) : Option PfdaNode :=
  let parentPath := dirname element.path
  if parentPath = element.path then none
  else getNodeByPath nodes parentPath

/-- Modelled from the spec sentence of C3 (what the claim asserts
`getParent` does): prefer the stored parent back-reference and only fall
back to the dirname-derived cache scan when it is absent. Kept for
comparison with the implementation above. -/
def getParentClaimed (nodes : List PfdaNode) (element : PfdaNode) : Option PfdaNode :=
  match element.parent with
  | some p => some p
  | none =>
    let parentPath := dirname element.path
    if parentPath = element.path then none
    else getNodeByPath nodes parentPath

/-- One raw entry of a listing response, as `_buildNodesFromListing` reads
it: a `type` field, a display `name`, an optionally reported `path`, and
the two identifiers. -/
structure ListItem where
  type : String
  name : String
  path : Option String
  uid : Option String
  id : Option String

/-- The raw path the loop works with: `item.path || item.name`, with the
skip of falsy values (`if (!itemPath) continue`) reported as `none`. -/
def effectiveRaw (it : ListItem) : Option String :=
  match truthy it.path with
  | some s => some s
  | none => if it.name = "" then none else some it.name

/-- The path stored on the produced node: join the raw reported path onto
the parent path unless the parent path is absent or the raw value is
already prefixed by it. -/
def computePath (parentPath : String) (raw : String) : String :=
  if parentPath ≠ "" then
    (if jsStartsWith raw parentPath then raw else pathJoin parentPath raw)
  else raw

/-- The lower-cased extension without its leading dot, as computed for
file items. -/
def extensionOf (name : String) : String :=
  let e := lowerStr (extname name)
  if jsStartsWith e "." then String.mk (e.data.tail) else e

/-- Embedding of `_buildNodesFromListing`: convert raw items to nodes,
skipping items with no usable path, and install the parent back-reference
when a parent node was supplied. (`item.uid || item.id` with both falsy is
JavaScript `undefined`; it is modelled as `""`, which no claim observes.) -/
def buildNodesFromListing (items : List ListItem) (parentPath : String)
    (parentNode : Option PfdaNode) : List PfdaNode :=
  match items with
  | [] => []
  | it :: rest =>
    match effectiveRaw it with
    | none => buildNodesFromListing rest parentPath parentNode
    | some raw =>
      let isDir := it.type = "Folder"
      let nodeId := match truthy it.uid with
        | some s => s
        | none => (truthy it.id).getD ""
      let ext := if isDir then none else some (extensionOf it.name)
      PfdaNode.mk nodeId it.name (computePath parentPath raw) isDir ext parentNode
        :: buildNodesFromListing rest parentPath parentNode

/-! ### Process adapter (`callPfdaCli`) -/

/-- Observed behaviour of one spawned process: its exit code and captured
output streams. -/
structure ProcOutcome where
  exitCode : Int
  stdout : String
  stderr : String

/-- The JSON flag handling at the top of `callPfdaCli`: push `-json`
unless already present. -/
def ensureJsonArg (args : List String) : List String :=
  if "-json" ∈ args then args else args ++ ["-json"]

/-- The `close` handler of `callPfdaCli`: nonzero exit rejects with stderr
(or the generic message when stderr is empty); exit 0 parses stdout as
JSON and rejects on parse failure. `parse` stands for `JSON.parse`,
returning `none` where the JavaScript function throws. -/
def closeResult {J : Type} (parse : String → Option J) (out : ProcOutcome) :
    Except String J :=
  if out.exitCode ≠ 0 then
    Except.error (if out.stderr ≠ "" then out.stderr
                  else "pfda exited with code " ++ toString out.exitCode)
  else
    match parse out.stdout with
    | some v => Except.ok v
    | none => Except.error ("Failed to parse pfda JSON output: " ++ out.stdout)

/-- Embedding of `callPfdaCli`: the argument list actually spawned and the
settled result of the returned promise. -/
def callPfdaCli {J : Type} (parse : String → Option J) (args : List String)
    (out : ProcOutcome) : List String × Except String J :=
  (ensureJsonArg args, closeResult parse out)

/-! ### Space qualifier and argument builders -/

/-- The qualifier pattern of `pfdaCli.ts`:
`if (spaceId && spaceId !== 'my-home') args.push('-space-id', spaceId)`. -/
def spaceQualA (spaceId : Option String) : List String :=
  match spaceId with
  | some s => if s ≠ "" ∧ s ≠ "my-home" then ["-space-id", s] else []
  | none => []

/-- The qualifier pattern of the tree provider and file-operation
services: `if (activeSpaceId === 'my-home') {} else if (activeSpaceId)
{ args.push('-space-id', activeSpaceId) } else {}`. -/
def spaceQualB (activeSpaceId : Option String) : List String :=
  match activeSpaceId with
  | some s => if s = "my-home" then [] else if s ≠ "" then ["-space-id", s] else []
  | none => []

/-- Whether an active space context is set (truthy) and is not the default
home space. -/
def activeNonHome (spaceId : Option String) : Bool :=
  match spaceId with
  | some s => s != "" && s != "my-home"
  | none => false

/-- The `-folder-id` qualifier of the upload command
(`if (folderId) args.push('-folder-id', folderId)`). -/
def folderQual (folderId : Option String) : List String :=
  match folderId with
  | some f => if f ≠ "" then ["-folder-id", f] else []
  | none => []

/-- The `-threads` tuning argument (`if (options?.threads)` — `0` is
falsy). -/
def threadsQual (threads : Option Nat) : List String :=
  match threads with
  | some n => if n ≠ 0 then ["-threads", toString n] else []
  | none => []

/-- The `-chunksize` tuning argument. -/
def chunksizeQual (chunksize : Option Nat) : List String :=
  match chunksize with
  | some n => if n ≠ 0 then ["-chunksize", toString n] else []
  | none => []

/-- Arguments of the streaming upload invocation built in
`_uploadFilesInternal`. -/
def uploadArgs (filePaths : List String) (spaceId folderId : Option String)
    (threads chunksize : Option Nat) : List String :=
  "upload-file" :: filePaths ++ spaceQualA spaceId ++ folderQual folderId
    ++ threadsQual threads ++ chunksizeQual chunksize

/-- The `ls` call of `_deleteRemoteDirectoryInternal`. -/
def deleteLsArgs (directoryId : String) (spaceId : Option String) : List String :=
  ["ls", "-folder-id", directoryId, "-json"] ++ spaceQualA spaceId

/-- The `rm` call of `_deleteRemoteDirectoryInternal` (primary and
alternative attempt share this shape). -/
def deleteRmArgs (itemId : String) (spaceId : Option String) : List String :=
  ["rm", itemId] ++ spaceQualA spaceId

/-- The final `rmdir` call of `_deleteRemoteDirectoryInternal`. -/
def deleteRmdirArgs (directoryId : String) (spaceId : Option String) : List String :=
  ["rmdir", directoryId] ++ spaceQualA spaceId

/-- Root listing of `PfdaTreeDataProvider.getChildren`. -/
def lsRootArgs (defaultParams : List String) (activeSpaceId : Option String) : List String :=
  "ls" :: defaultParams ++ spaceQualB activeSpaceId

/-- Folder listing of `PfdaTreeDataProvider.getChildren`. -/
def lsFolderArgs (defaultParams : List String) (folderId : String)
    (activeSpaceId : Option String) : List String :=
  "ls" :: defaultParams ++ ["-folder-id", folderId] ++ spaceQualB activeSpaceId

/-- Download call of the file-operation / file-opener services. -/
def downloadArgs (nodeId outputDir : String) (activeSpaceId : Option String) : List String :=
  ["download", nodeId, "-output", outputDir] ++ spaceQualB activeSpaceId

/-- Whether the new directory name contains a path separator. -/
def containsSep (name : String) : Bool :=
  name.data.contains '/' || name.data.contains '\\'

/-- The `mkdir` call of `createDirectory`. -/
def mkdirArgs (directoryName : String) (parentFolderId : Option String)
    (activeSpaceId : Option String) : List String :=
  ["mkdir", directoryName]
    ++ (match parentFolderId with | some f => ["-folder-id", f] | none => [])
    ++ (if containsSep directoryName then ["-p"] else [])
    ++ spaceQualB activeSpaceId

/-- The `rm` call of `removeFile`. -/
def removeFileArgs (nodeId : String) (activeSpaceId : Option String) : List String :=
  ["rm", nodeId] ++ spaceQualB activeSpaceId

/-- The `cat` call of `catFile`. -/
def catArgs (nodeId : String) (activeSpaceId : Option String) : List String :=
  ["cat", nodeId] ++ spaceQualB activeSpaceId

/-- The `head` call of `headFile`. -/
def headArgs (nodeId : String) (activeSpaceId : Option String) : List String :=
  ["head", nodeId] ++ spaceQualB activeSpaceId

/-! ### Upload pipeline (`_uploadFilesInternal`) -/

/-- One entry of a local directory as `readdir(…, { withFileTypes: true })`
reports it: a subdirectory (readable or failing on `readdir`) or any
non-directory entry. -/
inductive LocalEntry where
  | file (name : String)
  | dir (name : String) (entries : List LocalEntry)
  | unreadableDir (name : String)

/-- One upload input path after the initial `stat` call: the stat can
fail, report a plain file, or report a directory (whose own `readdir` may
fail). -/
inductive LocalPath where
  | statFail (path : String)
  | file (path : String) (size : Nat)
  | dir (path : String) (entries : List LocalEntry)
  | unreadableDir (path : String)

def LocalPath.pathOf : LocalPath → String
  | .statFail p => p
  | .file p _ => p
  | .dir p _ => p
  | .unreadableDir p => p

/-- The stat record `_uploadFilesInternal` builds per input path; a failing
`stat` is caught and recorded as a non-directory of size zero. -/
structure StatRec where
  path : String
  isDirectory : Bool
  size : Nat
deriving DecidableEq

/-- The per-path result of the `fs.promises.stat` loop. -/
def statOf : LocalPath → StatRec
  | .statFail p => ⟨p, false, 0⟩
  | .file p sz => ⟨p, false, sz⟩
  | .dir p _ => ⟨p, true, 0⟩
  | .unreadableDir p => ⟨p, true, 0⟩

/-- Embedding of `countFilesInDirectory`: directories recurse, everything
else counts as one file; a failing `readdir` contributes zero. -/
def countFilesInDirectory : List LocalEntry → Nat
  | [] => 0
  | .file _ :: rest => countFilesInDirectory rest + 1
  | .dir _ entries :: rest => countFilesInDirectory entries + countFilesInDirectory rest
  | .unreadableDir _ :: rest => countFilesInDirectory rest
termination_by l => sizeOf l

/-- What one input path contributes to the total file count: directories
contribute their recursive file count, everything whose stat reported
non-directory (including failed stats) contributes one. -/
def pathContribution : LocalPath → Nat
  | .statFail _ => 1
  | .file _ _ => 1
  | .dir _ entries => countFilesInDirectory entries
  | .unreadableDir _ => 0

/-- The total file count summed over all inputs. -/
def totalFiles (inputs : List LocalPath) : Nat :=
  (inputs.map pathContribution).sum

/-- Observable outcome of one `_uploadFilesInternal` run: either the
zero-file early return (warn the caller, resolve, no process spawned), or
the spawn of the external upload process with the given arguments. -/
inductive UploadOutcome where
  | noOpWarned
  | spawned (args : List String)
deriving DecidableEq

/-- Embedding of `_uploadFilesInternal` up to the spawn decision. -/
def uploadFilesRun (inputs : List LocalPath) (spaceId folderId : Option String)
    (threads chunksize : Option Nat) : UploadOutcome :=
  if totalFiles inputs = 0 then UploadOutcome.noOpWarned
  else UploadOutcome.spawned
    (uploadArgs (inputs.map LocalPath.pathOf) spaceId folderId threads chunksize)

/-! ### Recursive deletion engine (`_deleteRemoteDirectoryInternal`) -/

/-- One item of a remote listing as the deletion engine reads it: a file
with its `uid` (primary identifier) and optional numeric `id`
(alternative identifier), or a subdirectory with its `id` and its own
listing. The tree stands for the remote state the successive `ls` calls
reveal. -/
inductive RemoteItem where
  | file (uid : String) (altId : Option String)
  | dir (id : String) (contents : List RemoteItem)

/-- One remote call issued by the engine (argument lists for these calls
are covered by `deleteLsArgs`, `deleteRmArgs` and `deleteRmdirArgs`). -/
inductive DelCall where
  | ls (folderId : String)
  | rm (fileId : String)
  | rmdir (dirId : String)
deriving DecidableEq, Repr

/-- Environment of one deletion task: which `rm` / `rmdir` / `ls` calls
the remote accepts, and the point (as a count of calls already issued)
from which the cancellation token reports `isCancellationRequested`. -/
structure DelEnv where
  rmOk : String → Bool
  rmdirOk : String → Bool
  lsOk : String → Bool
  cancelAt : Option Nat

/-- The cooperative cancellation check at the top of each item iteration:
the token is requested once `cancelAt` calls have been issued. -/
def cancelRequested (env : DelEnv) (callCount : Nat) : Bool :=
  match env.cancelAt with
  | none => false
  | some k => k ≤ callCount

/-- How the item loop of one invocation ended: ran to completion, returned
early on an observed cancellation, or threw. -/
inductive LoopOutcome where
  | ok
  | cancelled
  | failed
deriving DecidableEq, Repr

mutual

/-- Embedding of `_deleteRemoteDirectoryInternal` for one directory: list
the contents, process each item, then remove the now-empty directory. The
accumulated call trace doubles as the global call counter for the
cancellation token. Returns the full trace and whether the promise
resolved. -/
def delDir (env : DelEnv) (dirId : String) (contents : List RemoteItem)
    (acc : List DelCall) : List DelCall × Bool :=
  let acc1 := acc ++ [DelCall.ls dirId]
  if env.lsOk dirId then
    match delItems env contents acc1 with
    | (acc2, LoopOutcome.ok) => (acc2 ++ [DelCall.rmdir dirId], env.rmdirOk dirId)
    | (acc2, LoopOutcome.cancelled) => (acc2, true)
    | (acc2, LoopOutcome.failed) => (acc2, false)
  else (acc1, false)
termination_by sizeOf contents + 1

/-- The item loop of `_deleteRemoteDirectoryInternal`: check cancellation,
recurse into subdirectories, delete files with the single
alternative-identifier retry, abort the loop on an unrecovered failure. -/
def delItems (env : DelEnv) (items : List RemoteItem) (acc : List DelCall) :
    List DelCall × LoopOutcome :=
  match items with
  | [] => (acc, LoopOutcome.ok)
  | item :: rest =>
    if cancelRequested env acc.length then (acc, LoopOutcome.cancelled)
    else
      match item with
      | RemoteItem.dir id contents =>
        match delDir env id contents acc with
        | (acc2, true) => delItems env rest acc2
        | (acc2, false) => (acc2, LoopOutcome.failed)
      | RemoteItem.file uid altId =>
        let acc2 := acc ++ [DelCall.rm uid]
        if env.rmOk uid then delItems env rest acc2
        else
          match altId with
          | some alt =>
            if alt ≠ uid then
              let acc3 := acc2 ++ [DelCall.rm alt]
              if env.rmOk alt then delItems env rest acc3
              else (acc3, LoopOutcome.failed)
            else (acc2, LoopOutcome.failed)
          | none => (acc2, LoopOutcome.failed)
termination_by sizeOf items

end

/-- The call trace of a fully successful, uncancelled run: depth-first,
one `ls` per directory on entry, files removed in listing order, each
directory's `rmdir` after its contents. -/
def succTrace : List RemoteItem → List DelCall
  | [] => []
  | RemoteItem.file uid _ :: rest => DelCall.rm uid :: succTrace rest
  | RemoteItem.dir id contents :: rest =>
    (DelCall.ls id :: succTrace contents ++ [DelCall.rmdir id]) ++ succTrace rest
termination_by l => sizeOf l

/-- The delete calls (rm and rmdir, excluding listings) demanded by the
specification: depth-first, a subdirectory's contents before its own
`rmdir`, siblings in listing order. -/
def dfsDeleteCalls : List RemoteItem → List DelCall
  | [] => []
  | RemoteItem.file uid _ :: rest => DelCall.rm uid :: dfsDeleteCalls rest
  | RemoteItem.dir id contents :: rest =>
    (dfsDeleteCalls contents ++ [DelCall.rmdir id]) ++ dfsDeleteCalls rest
termination_by l => sizeOf l

/-- Whether a call is a delete call (`rm` or `rmdir`) rather than a
listing. -/
def isDeleteCall : DelCall → Bool
  | DelCall.ls _ => false
  | DelCall.rm _ => true
  | DelCall.rmdir _ => true

def isRmCall : DelCall → Bool
  | DelCall.rm _ => true
  | _ => false

def isRmdirCall : DelCall → Bool
  | DelCall.rmdir _ => true
  | _ => false

/-- Total number of files at all depths. -/
def fileCount : List RemoteItem → Nat
  | [] => 0
  | RemoteItem.file _ _ :: rest => fileCount rest + 1
  | RemoteItem.dir _ contents :: rest => fileCount contents + fileCount rest
termination_by l => sizeOf l

/-- Total number of subdirectories at all depths. -/
def dirCount : List RemoteItem → Nat
  | [] => 0
  | RemoteItem.file _ _ :: rest => dirCount rest
  | RemoteItem.dir _ contents :: rest => dirCount contents + dirCount rest + 1
termination_by l => sizeOf l

/-- Whether every item of a listing (recursively) deletes successfully on
its primary identifier: all file `rm`s succeed, all subdirectory `ls`s
and `rmdir`s succeed. -/
def itemsOk (env : DelEnv) : List RemoteItem → Bool
  | [] => true
  | RemoteItem.file uid _ :: rest => env.rmOk uid && itemsOk env rest
  | RemoteItem.dir id contents :: rest =>
    env.lsOk id && env.rmdirOk id && itemsOk env contents && itemsOk env rest
termination_by l => sizeOf l

/-! ### Drag and drop reconciler (`PfdaDragAndDropController.handleDrop`) -/

/-- The two data-transfer entries `handleDrop` inspects. -/
structure DataTransfer where
  internalItem : Option (List PfdaNode)
  uriListItem : Option String

/-- Observable effects of one `handleDrop` call: the attempted `mv`
commands (source path, destination path) in order, the number of
non-fatal move-failure notifications, the upload-pipeline invocation (file
paths, space id, folder id) if any, and whether the refresh callback
fired. -/
structure DropResult where
  moves : List (String × String)
  moveFailures : Nat
  uploaded : Option (List String × Option String × Option String)
  refreshed : Bool

/-- Embedding of `handleDrop`. `moveOk` tells which `mv` commands the
executable accepts (failures are caught and surfaced, never aborting the
loop); `confirm` is the user's answer to the upload confirmation;
`uploadOk` whether the delegated upload resolves; `uriToPath` stands for
`vscode.Uri.parse(...).fsPath`. -/
def handleDrop (moveOk : String → String → Bool) (confirm uploadOk : Bool)
    (activeSpaceId : Option String) (uriToPath : String → String)
    (target : Option PfdaNode) (sources : DataTransfer) : DropResult :=
  match sources.internalItem with
  | some sourceNodes =>
    let moves :=
      match target with
      | some t =>
        if t.isDirectory then
          sourceNodes.map (fun n => (n.path, pathJoin t.path (basename n.path)))
        else []
      | none => []
    { moves := moves
      moveFailures := (moves.filter (fun m => !(moveOk m.1 m.2))).length
      uploaded := none
      refreshed := true }
  | none =>
    match sources.uriListItem with
    | some uriList =>
      let uris := ((uriList.splitOn "\n").map trimStr).filter (· ≠ "")
      if uris = [] then ⟨[], 0, none, false⟩
      else
        let filePaths := uris.map uriToPath
        let targetFolderId :=
          match target with
          | some t => if t.isDirectory then some t.id else t.parent.map PfdaNode.id
          | none => none
        if confirm then
          { moves := []
            moveFailures := 0
            uploaded := some (filePaths,
              (if activeSpaceId = some "my-home" then none else activeSpaceId),
              targetFolderId)
            refreshed := uploadOk }
        else ⟨[], 0, none, false⟩
    | none => ⟨[], 0, none, false⟩

/-! ### Auxiliary measures and validity predicates -/

/-- Number of items at all depths; used as fuel for induction over
deletion runs. -/
def itemsWeight : List RemoteItem → Nat
  | [] => 0
  | RemoteItem.file _ _ :: rest => itemsWeight rest + 1
  | RemoteItem.dir _ contents :: rest => itemsWeight contents + itemsWeight rest + 1
termination_by l => sizeOf l

/-- A path segment is plain: nonempty and neither `.` nor `..`. -/
def goodSegB (s : List Char) : Bool :=
  s != [] && s != ['.'] && s != ['.', '.']

/-- The parent path supplied to `_buildNodesFromListing` is a normalised
absolute path: it starts with `/`, is more than the bare root, and all its
segments are plain (in particular no empty segment, hence no doubled or
trailing slash). -/
def isNormalAbs (p : String) : Bool :=
  match p.data with
  | [] => false
  | c :: rest => c == '/' && rest != [] && (splitSlash rest).all goodSegB

/-- A raw reported path is free of `.` and `..` segments (a property of
every path a valid listing response reports). -/
def rawSegsOk (r : String) : Bool :=
  (splitSlash r.data).all (fun s => s != ['.'] && s != ['.', '.'])

/-- All raw paths of a listing are free of dot segments. -/
def itemsRawOk (items : List ListItem) : Bool :=
  items.all (fun it =>
    match effectiveRaw it with
    | some raw => rawSegsOk raw
    | none => true)

/-! ### Concrete inputs used by witnesses and counterexamples -/

/-- Environment in which every remote call succeeds and cancellation is
never requested. -/
def envAllOk : DelEnv := ⟨fun _ => true, fun _ => true, fun _ => true, none⟩

/-- A directory with two files and one subdirectory holding a further
file. -/
def wTreeC1 : List RemoteItem :=
  [RemoteItem.file "a" none,
   RemoteItem.dir "n" [RemoteItem.file "b" (some "5")],
   RemoteItem.file "c" none]

/-- Environment in which only the primary identifier `u` is rejected
by `rm`. -/
def envC2w : DelEnv := ⟨fun s => s != "u", fun _ => true, fun _ => true, none⟩

/-- Sibling listed before the failing file. -/
def wPreC2 : List RemoteItem := [RemoteItem.file "p" none]

/-- Sibling listed after the failing file. -/
def wPostC2 : List RemoteItem := [RemoteItem.file "q" none]

/-- Environment whose cancellation token becomes requested once three
calls have been issued. -/
def envC8w : DelEnv := ⟨fun _ => true, fun _ => true, fun _ => true, some 3⟩

/-- The same environment without cancellation. -/
def envC8nc : DelEnv := ⟨fun _ => true, fun _ => true, fun _ => true, none⟩

/-- A directory whose single (hence last) item is a subdirectory with two
files. -/
def treeC8w : List RemoteItem :=
  [RemoteItem.dir "s" [RemoteItem.file "x" none, RemoteItem.file "y" none]]

/-- Environment whose cancellation token becomes requested once two calls
have been issued. -/
def envC8am : DelEnv := ⟨fun _ => true, fun _ => true, fun _ => true, some 2⟩

/-- A cached node standing for the directory `/alpha`. -/
def wParentNode : PfdaNode := PfdaNode.mk "10" "alpha" "/alpha" true none none

/-- A node created with the parent back-reference installed. -/
def wChildNode : PfdaNode :=
  PfdaNode.mk "file-20" "b.txt" "/alpha/b.txt" false (some "txt") (some wParentNode)

/-- Listing items used by the C6 witness: one folder whose reported path
is already absolute, one file reported by bare name. -/
def wItemsC6 : List ListItem :=
  [⟨"Folder", "beta", some "/alpha/beta", none, some "31"⟩,
   ⟨"UserFile", "c.txt", none, some "file-32", some "32"⟩]

/-- Upload inputs that resolve to zero files: one empty directory. -/
def wInputsC7 : List LocalPath := [LocalPath.dir "/data/empty" []]

/-- Upload inputs containing one path whose stat fails. -/
def wInputsC10 : List LocalPath := [LocalPath.statFail "/data/missing.bin"]

/-- A synthetic root-level node: the dirname of `/` is `/` itself. -/
def wRootNode : PfdaNode := PfdaNode.mk "root" "root" "/" true none none

/-- A directory node used as a drop target. -/
def wTargetDir : PfdaNode := PfdaNode.mk "40" "gamma" "/gamma" true none none

/-- A parse function standing for `JSON.parse` in the adapter witness. -/
def wParse : String → Option Nat := fun s => if s = "42" then some 42 else none

/-- A successful process outcome with JSON stdout. -/
def wOut : ProcOutcome := ⟨0, "42", ""⟩

/-! ## Lemmas about the deletion engine -/

lemma cancelRequested_of_none {env : DelEnv} (hc : env.cancelAt = none) (n : Nat) :
    cancelRequested env n = false := by
  simp [cancelRequested, hc]

/-- With no cancellation, a fully successful prefix of the item list is
processed first, leaving its success trace behind. -/
lemma delItems_append_of_ok (env : DelEnv) (hc : env.cancelAt = none) :
    ∀ (n : Nat) (pre post : List RemoteItem) (acc : List DelCall),
      itemsWeight pre ≤ n → itemsOk env pre = true →
      delItems env (pre ++ post) acc = delItems env post (acc ++ succTrace pre) := by
  intro n
  induction n with
  | zero =>
    intro pre post acc hw _
    cases pre with
    | nil => simp [succTrace]
    | cons item rest => cases item <;> rw [itemsWeight] at hw <;> omega
  | succ n ih =>
    intro pre post acc hw hok
    cases pre with
    | nil => simp [succTrace]
    | cons item rest =>
      cases item with
      | file uid altId =>
        rw [itemsWeight] at hw
        rw [itemsOk, Bool.and_eq_true] at hok
        obtain ⟨h1, h2⟩ := hok
        rw [List.cons_append, delItems]
        simp only [cancelRequested_of_none hc, Bool.false_eq_true, if_false, h1, if_true]
        rw [ih rest post (acc ++ [DelCall.rm uid]) (by omega) h2]
        rw [succTrace]
        simp [List.append_assoc]
      | dir id contents =>
        rw [itemsWeight] at hw
        rw [itemsOk, Bool.and_eq_true, Bool.and_eq_true, Bool.and_eq_true] at hok
        obtain ⟨⟨⟨hls, hrd⟩, hcont⟩, hrest⟩ := hok
        have hcontents :
            delItems env contents (acc ++ [DelCall.ls id])
              = ((acc ++ [DelCall.ls id]) ++ succTrace contents, LoopOutcome.ok) := by
          have h := ih contents [] (acc ++ [DelCall.ls id]) (by omega) hcont
          rw [List.append_nil] at h
          rw [h, delItems]
        have hdd : delDir env id contents acc
            = ((acc ++ [DelCall.ls id]) ++ succTrace contents ++ [DelCall.rmdir id], true) := by
          rw [delDir]
          simp only [hls, if_true]
          rw [hcontents, hrd]
        rw [List.cons_append, delItems]
        simp only [cancelRequested_of_none hc, Bool.false_eq_true, if_false]
        rw [hdd]
        show delItems env (rest ++ post)
            ((acc ++ [DelCall.ls id]) ++ succTrace contents ++ [DelCall.rmdir id])
          = delItems env post (acc ++ succTrace (RemoteItem.dir id contents :: rest))
        rw [ih rest post _ (by omega) hrest]
        rw [succTrace]
        simp [List.append_assoc]

/-- With no cancellation, a fully successful item list runs to completion
and issues exactly its success trace. -/
lemma delItems_of_ok (env : DelEnv) (hc : env.cancelAt = none)
    (items : List RemoteItem) (acc : List DelCall) (hok : itemsOk env items = true) :
    delItems env items acc = (acc ++ succTrace items, LoopOutcome.ok) := by
  have h := delItems_append_of_ok env hc (itemsWeight items) items [] acc le_rfl hok
  rw [List.append_nil] at h
  rw [h, delItems]

/-- With no cancellation and fully successful contents, one directory
invocation lists itself, runs the success trace of its contents, and ends
with its own `rmdir`, succeeding exactly when that `rmdir` succeeds. -/
lemma delDir_of_ok (env : DelEnv) (hc : env.cancelAt = none) (d : String)
    (contents : List RemoteItem) (acc : List DelCall)
    (hls : env.lsOk d = true) (hok : itemsOk env contents = true) :
    delDir env d contents acc
      = (acc ++ (DelCall.ls d :: succTrace contents ++ [DelCall.rmdir d]), env.rmdirOk d) := by
  rw [delDir]
  simp only [hls, if_true]
  rw [delItems_of_ok env hc contents (acc ++ [DelCall.ls d]) hok]
  simp [List.append_assoc]

/-- When every call succeeds, the whole listing is successful. -/
lemma itemsOk_of_all (env : DelEnv) (hrm : ∀ s, env.rmOk s = true)
    (hrd : ∀ s, env.rmdirOk s = true) (hls : ∀ s, env.lsOk s = true) :
    ∀ items : List RemoteItem, itemsOk env items = true := by
  intro items
  induction items using succTrace.induct with
  | case1 => rw [itemsOk]
  | case2 uid altId rest ihr => rw [itemsOk]; simp [hrm, ihr]
  | case3 id contents rest ihc ihr => rw [itemsOk]; simp [hls, hrd, ihc, ihr]

lemma isDeleteCall_ls (i : String) : isDeleteCall (DelCall.ls i) = false := rfl

lemma isDeleteCall_rm (i : String) : isDeleteCall (DelCall.rm i) = true := rfl

lemma isDeleteCall_rmdir (i : String) : isDeleteCall (DelCall.rmdir i) = true := rfl

lemma isRmCall_ls (i : String) : isRmCall (DelCall.ls i) = false := rfl

lemma isRmCall_rm (i : String) : isRmCall (DelCall.rm i) = true := rfl

lemma isRmCall_rmdir (i : String) : isRmCall (DelCall.rmdir i) = false := rfl

lemma isRmdirCall_ls (i : String) : isRmdirCall (DelCall.ls i) = false := rfl

lemma isRmdirCall_rm (i : String) : isRmdirCall (DelCall.rm i) = false := rfl

lemma isRmdirCall_rmdir (i : String) : isRmdirCall (DelCall.rmdir i) = true := rfl

/-- The delete calls of a success trace are exactly the depth-first delete
calls. -/
lemma filter_succTrace (items : List RemoteItem) :
    (succTrace items).filter (fun c => isDeleteCall c) = dfsDeleteCalls items := by
  induction items using succTrace.induct with
  | case1 => simp [succTrace, dfsDeleteCalls]
  | case2 uid altId rest ihr =>
    simp [succTrace, dfsDeleteCalls, List.filter_cons, isDeleteCall_rm, ihr]
  | case3 id contents rest ihc ihr =>
    simp [succTrace, dfsDeleteCalls, List.filter_cons, List.filter_append,
      isDeleteCall_ls, isDeleteCall_rmdir, ihc, ihr]

/-- A success trace holds one `rm` call per file at any depth. -/
lemma countP_rm_succTrace (items : List RemoteItem) :
    (succTrace items).countP (fun c => isRmCall c) = fileCount items := by
  induction items using succTrace.induct with
  | case1 => simp [succTrace, fileCount]
  | case2 uid altId rest ihr =>
    simp [succTrace, fileCount, List.countP_cons, isRmCall_rm, ihr]
  | case3 id contents rest ihc ihr =>
    simp [succTrace, fileCount, List.countP_cons, List.countP_append,
      isRmCall_ls, isRmCall_rmdir, ihc, ihr]

/-- A success trace holds one `rmdir` call per subdirectory at any
depth. -/
lemma countP_rmdir_succTrace (items : List RemoteItem) :
    (succTrace items).countP (fun c => isRmdirCall c) = dirCount items := by
  induction items using succTrace.induct with
  | case1 => simp [succTrace, dirCount]
  | case2 uid altId rest ihr =>
    simp [succTrace, dirCount, List.countP_cons, isRmdirCall_rm, ihr]
  | case3 id contents rest ihc ihr =>
    simp [succTrace, dirCount, List.countP_cons, List.countP_append,
      isRmdirCall_ls, isRmdirCall_rmdir, ihc, ihr]
    omega

/-! ## Claim theorems for the deletion engine -/

/-- C1: when every remote delete call succeeds on the primary identifier
(and no cancellation occurs), `deleteRemoteDirectory` on a directory whose
recursive listing yields `fileCount` files and `dirCount` subdirectories
issues exactly that many `rm` calls, one `rmdir` per subdirectory plus one
final `rmdir` for the directory itself, and the delete calls are exactly
the depth-first sequence: a subdirectory's entire contents (ending in its
own `rmdir`) before any later sibling, the directory's own `rmdir` last. -/
theorem pfda_C1_depth_first_deletion (env : DelEnv) (d : String)
    (contents : List RemoteItem) (hc : env.cancelAt = none)
    (hrm : ∀ s, env.rmOk s = true) (hrd : ∀ s, env.rmdirOk s = true)
    (hls : ∀ s, env.lsOk s = true) :
    delDir env d contents []
        = (DelCall.ls d :: (succTrace contents ++ [DelCall.rmdir d]), true)
    ∧ (delDir env d contents []).1.filter (fun c => isDeleteCall c)
        = dfsDeleteCalls contents ++ [DelCall.rmdir d]
    ∧ (delDir env d contents []).1.countP (fun c => isRmCall c) = fileCount contents
    ∧ (delDir env d contents []).1.countP (fun c => isRmdirCall c)
        = dirCount contents + 1 := by
  have hok := itemsOk_of_all env hrm hrd hls contents
  have h := delDir_of_ok env hc d contents [] (hls d) hok
  rw [hrd d] at h
  have h' : delDir env d contents []
      = (DelCall.ls d :: (succTrace contents ++ [DelCall.rmdir d]), true) := by
    rw [h]; simp
  refine ⟨h', ?_, ?_, ?_⟩ <;> rw [h'] <;>
    simp [List.filter_cons, List.filter_append, List.countP_cons, List.countP_append,
      isDeleteCall_ls, isDeleteCall_rmdir, isRmCall_ls, isRmCall_rmdir,
      isRmdirCall_ls, isRmdirCall_rmdir, filter_succTrace, countP_rm_succTrace,
      countP_rmdir_succTrace]

/-- Witness for C1: a concrete directory with two files and one
subdirectory holding a further file, with every call succeeding. -/
theorem pfda_C1_witness :
    delDir envAllOk "d" wTreeC1 []
      = (DelCall.ls "d" :: (succTrace wTreeC1 ++ [DelCall.rmdir "d"]), true) :=
  (pfda_C1_depth_first_deletion envAllOk "d" wTreeC1 rfl (fun _ => rfl) (fun _ => rfl)
    (fun _ => rfl)).1

/-- C2: when a file's delete fails on its primary identifier, exactly one
fallback `rm` on the alternative identifier is attempted, and only when
that identifier is present and differs from the primary; a successful
fallback lets the run continue and the directory deletion still succeeds;
a failing fallback, an equal alternative, or a missing one fails the whole
task, and no delete call is issued for any later sibling. -/
theorem pfda_C2_fallback_identifier (env : DelEnv) (d uid alt : String)
    (pre post : List RemoteItem) (hc : env.cancelAt = none)
    (hls : ∀ s, env.lsOk s = true) (hrd : ∀ s, env.rmdirOk s = true)
    (hpre : itemsOk env pre = true) (hfail : env.rmOk uid = false) :
    (alt ≠ uid → env.rmOk alt = true → itemsOk env post = true →
      delDir env d (pre ++ RemoteItem.file uid (some alt) :: post) []
        = (DelCall.ls d :: (succTrace pre
            ++ DelCall.rm uid :: DelCall.rm alt :: (succTrace post ++ [DelCall.rmdir d])),
           true))
    ∧ (alt ≠ uid → env.rmOk alt = false →
      delDir env d (pre ++ RemoteItem.file uid (some alt) :: post) []
        = (DelCall.ls d :: (succTrace pre ++ [DelCall.rm uid, DelCall.rm alt]), false))
    ∧ (alt = uid →
      delDir env d (pre ++ RemoteItem.file uid (some alt) :: post) []
        = (DelCall.ls d :: (succTrace pre ++ [DelCall.rm uid]), false))
    ∧ delDir env d (pre ++ RemoteItem.file uid none :: post) []
        = (DelCall.ls d :: (succTrace pre ++ [DelCall.rm uid]), false) := by
  have hstep : ∀ tail : List RemoteItem,
      delItems env (pre ++ tail) [DelCall.ls d]
        = delItems env tail ([DelCall.ls d] ++ succTrace pre) :=
    fun tail => delItems_append_of_ok env hc (itemsWeight pre) pre tail _ le_rfl hpre
  refine ⟨?_, ?_, ?_, ?_⟩
  · intro hne hok hpost
    have hloop : delItems env (pre ++ RemoteItem.file uid (some alt) :: post) [DelCall.ls d]
        = ((([DelCall.ls d] ++ succTrace pre) ++ [DelCall.rm uid] ++ [DelCall.rm alt])
            ++ succTrace post, LoopOutcome.ok) := by
      rw [hstep, delItems]
      simp only [cancelRequested_of_none hc, Bool.false_eq_true, if_false, hfail,
        if_pos hne, hok, if_true]
      rw [delItems_of_ok env hc post _ hpost]
    rw [delDir]
    simp only [hls d, if_true, List.nil_append]
    rw [hloop, hrd d]
    simp [List.append_assoc]
  · intro hne hko
    have hloop : delItems env (pre ++ RemoteItem.file uid (some alt) :: post) [DelCall.ls d]
        = ((([DelCall.ls d] ++ succTrace pre) ++ [DelCall.rm uid] ++ [DelCall.rm alt]),
           LoopOutcome.failed) := by
      rw [hstep, delItems]
      simp only [cancelRequested_of_none hc, Bool.false_eq_true, if_false, hfail,
        if_pos hne, hko]
    rw [delDir]
    simp only [hls d, if_true, List.nil_append]
    rw [hloop]
    simp [List.append_assoc]
  · intro heq
    have hloop : delItems env (pre ++ RemoteItem.file uid (some alt) :: post) [DelCall.ls d]
        = ((([DelCall.ls d] ++ succTrace pre) ++ [DelCall.rm uid]), LoopOutcome.failed) := by
      rw [hstep, delItems]
      simp only [cancelRequested_of_none hc, Bool.false_eq_true, if_false, hfail]
      simp [heq]
    rw [delDir]
    simp only [hls d, if_true, List.nil_append]
    rw [hloop]
    simp [List.append_assoc]
  · have hloop : delItems env (pre ++ RemoteItem.file uid none :: post) [DelCall.ls d]
        = ((([DelCall.ls d] ++ succTrace pre) ++ [DelCall.rm uid]), LoopOutcome.failed) := by
      rw [hstep, delItems]
      simp only [cancelRequested_of_none hc, Bool.false_eq_true, if_false, hfail]
    rw [delDir]
    simp only [hls d, if_true, List.nil_append]
    rw [hloop]
    simp [List.append_assoc]

/-- Witness for C2: the primary identifier `file-u` is rejected, the
alternative `7` accepted; the sibling before and after are still deleted
and the task succeeds. -/
theorem pfda_C2_witness :
    delDir envC2w "d" (wPreC2 ++ RemoteItem.file "u" (some "7") :: wPostC2) []
      = (DelCall.ls "d" :: (succTrace wPreC2
          ++ DelCall.rm "u" :: DelCall.rm "7"
            :: (succTrace wPostC2 ++ [DelCall.rmdir "d"])), true) :=
  (pfda_C2_fallback_identifier envC2w "d" "u" "7" wPreC2 wPostC2 rfl
      (fun _ => rfl) (fun _ => rfl)
      (by simp [wPreC2, itemsOk, envC2w]) (by simp [envC2w])).1
    (by simp) (by simp [envC2w]) (by simp [wPostC2, itemsOk, envC2w])

/-- C8 counterexample: with cancellation requested after three calls, the
run on a directory `d` whose only (last) item is the subdirectory `s` is
cut short — `rm y` and `rmdir s` are never issued — yet the outer
directory's own `rmdir d` is still issued after the cancellation was
observed, contradicting the claim that once the flag is observed no
further `rm`/`rmdir` call is issued at any depth and in particular the
directory's own `rmdir` is not issued. -/
theorem pfda_C8_counterexample :
    delDir envC8w "d" treeC8w []
        = ([DelCall.ls "d", DelCall.ls "s", DelCall.rm "x", DelCall.rmdir "d"], true)
    ∧ delDir envC8nc "d" treeC8w []
        = ([DelCall.ls "d", DelCall.ls "s", DelCall.rm "x", DelCall.rm "y",
            DelCall.rmdir "s", DelCall.rmdir "d"], true)
    ∧ (delDir envC8w "d" treeC8w []).1 ≠ (delDir envC8nc "d" treeC8w []).1
    ∧ DelCall.rmdir "d" ∈ (delDir envC8w "d" treeC8w []).1 := by
  have h1 : delDir envC8w "d" treeC8w []
      = ([DelCall.ls "d", DelCall.ls "s", DelCall.rm "x", DelCall.rmdir "d"],
         true) := by
    simp [delDir, delItems, envC8w, treeC8w, cancelRequested]
  have h2 : delDir envC8nc "d" treeC8w []
      = ([DelCall.ls "d", DelCall.ls "s", DelCall.rm "x", DelCall.rm "y",
          DelCall.rmdir "s", DelCall.rmdir "d"], true) := by
    simp [delDir, delItems, envC8nc, treeC8w, cancelRequested]
  refine ⟨h1, h2, ?_, ?_⟩
  · rw [h1, h2]; decide
  · rw [h1]; decide

/-- C8 amended: cancellation is checked only at the top of each item
iteration, and the invocation that observes it stops issuing calls at its
own level at once, skips its own `rmdir`, and resolves successfully; an
ancestor invocation, however, may still issue its own `rmdir` when the
cancelled child was its last item (see the counterexample). -/
theorem pfda_C8_cancellation_amended (env : DelEnv) (d : String)
    (contents : List RemoteItem) (k : Nat) (hk : env.cancelAt = some k)
    (hls : env.lsOk d = true) :
    (∀ t, delItems env contents [DelCall.ls d] = (t, LoopOutcome.cancelled) →
      delDir env d contents [] = (t, true))
    ∧ (∀ (item : RemoteItem) (rest : List RemoteItem) (acc : List DelCall),
        k ≤ acc.length →
        delItems env (item :: rest) acc = (acc, LoopOutcome.cancelled)) := by
  constructor
  · intro t ht
    rw [delDir]
    simp only [hls, if_true, List.nil_append]
    rw [ht]
  · intro item rest acc hacc
    rw [delItems.eq_def]
    simp [cancelRequested, hk, hacc]

/-- Witness for the amended C8: with cancellation requested after two
calls, the invocation on directory `s` observes it before its second
file, stops without `rm y` and without its own `rmdir`, and resolves
successfully. -/
theorem pfda_C8_amended_witness :
    delDir envC8am "s" [RemoteItem.file "x" none, RemoteItem.file "y" none] []
      = ([DelCall.ls "s", DelCall.rm "x"], true)
    ∧ delItems envC8am [RemoteItem.file "y" none]
        [DelCall.ls "s", DelCall.rm "x"]
      = ([DelCall.ls "s", DelCall.rm "x"], LoopOutcome.cancelled) := by
  have h := pfda_C8_cancellation_amended envC8am "s"
    [RemoteItem.file "x" none, RemoteItem.file "y" none] 2 rfl rfl
  exact ⟨h.1 [DelCall.ls "s", DelCall.rm "x"]
      (by simp [delItems, cancelRequested, envC8am]),
    h.2 (RemoteItem.file "y" none) [] [DelCall.ls "s", DelCall.rm "x"]
      (by simp)⟩

/-! ## Claim theorems for the process adapter -/

/-- C5: `callPfdaCli` appends `-json` exactly when it is not already
present; the promise resolves with the parsed JSON value exactly when the
exit code is 0 and stdout parses; a nonzero exit rejects with the captured
stderr or, when stderr is empty, the generic exited-with-code message;
exit 0 with unparseable stdout rejects with the parse-error message and
never resolves with a coerced value. -/
theorem pfda_C5_process_adapter {J : Type} (parse : String → Option J)
    (args : List String) (out : ProcOutcome) :
    ("-json" ∈ args → (callPfdaCli parse args out).1 = args)
    ∧ ("-json" ∉ args → (callPfdaCli parse args out).1 = args ++ ["-json"])
    ∧ "-json" ∈ (callPfdaCli parse args out).1
    ∧ (∀ v : J, (callPfdaCli parse args out).2 = Except.ok v ↔
        (out.exitCode = 0 ∧ parse out.stdout = some v))
    ∧ (out.exitCode ≠ 0 → (callPfdaCli parse args out).2
        = Except.error (if out.stderr ≠ "" then out.stderr
            else "pfda exited with code " ++ toString out.exitCode))
    ∧ (out.exitCode = 0 → parse out.stdout = none →
        (callPfdaCli parse args out).2
          = Except.error ("Failed to parse pfda JSON output: " ++ out.stdout)) := by
  refine ⟨?_, ?_, ?_, ?_, ?_, ?_⟩
  · intro h; simp [callPfdaCli, ensureJsonArg, h]
  · intro h; simp [callPfdaCli, ensureJsonArg, h]
  · by_cases h : "-json" ∈ args <;> simp [callPfdaCli, ensureJsonArg, h]
  · intro v
    constructor
    · intro h
      by_cases he : out.exitCode = 0
      · rcases hp : parse out.stdout with _ | w
        · simp [callPfdaCli, closeResult, he, hp] at h
        · simp [callPfdaCli, closeResult, he, hp] at h
          subst h
          exact ⟨he, rfl⟩
      · simp [callPfdaCli, closeResult, he] at h
    · rintro ⟨he, hp⟩
      simp [callPfdaCli, closeResult, he, hp]
  · intro h; simp [callPfdaCli, closeResult, h]
  · intro he hp; simp [callPfdaCli, closeResult, he, hp]

/-- Witness for C5: a call without the flag gets it appended, and a
zero-exit run with parseable stdout resolves with the parsed value. -/
theorem pfda_C5_witness :
    (callPfdaCli wParse ["ls"] wOut).1 = ["ls", "-json"]
    ∧ (callPfdaCli wParse ["ls"] wOut).2 = Except.ok 42 :=
  ⟨(pfda_C5_process_adapter wParse ["ls"] wOut).2.1 (by decide),
   ((pfda_C5_process_adapter wParse ["ls"] wOut).2.2.2.1 42).mpr
     ⟨rfl, by simp [wOut, wParse]⟩⟩

/-! ## Claim theorems for the upload pipeline -/

/-- C7: when the inputs resolve to a total file count of zero, the upload
resolves as a warned no-op without spawning the external process. -/
theorem pfda_C7_zero_files_noop (inputs : List LocalPath)
    (spaceId folderId : Option String) (threads chunksize : Option Nat)
    (h : totalFiles inputs = 0) :
    uploadFilesRun inputs spaceId folderId threads chunksize
      = UploadOutcome.noOpWarned := by
  simp [uploadFilesRun, h]

/-- Witness for C7: a single empty directory yields zero files and the
no-op outcome. -/
theorem pfda_C7_witness :
    uploadFilesRun wInputsC7 none none none none = UploadOutcome.noOpWarned :=
  pfda_C7_zero_files_noop wInputsC7 none none none none
    (by simp [totalFiles, wInputsC7, pathContribution, countFilesInDirectory])

/-- C10: an input path whose `stat` fails is recorded as a non-directory
of size zero, contributes exactly one to the total file count, and hence
forces the spawn branch — the external process is still invoked and the
failing path is among its arguments. -/
theorem pfda_C10_stat_failure_counts_one (inputs : List LocalPath)
    (spaceId folderId : Option String) (threads chunksize : Option Nat)
    (p : String) (h : LocalPath.statFail p ∈ inputs) :
    statOf (LocalPath.statFail p) = ⟨p, false, 0⟩
    ∧ pathContribution (LocalPath.statFail p) = 1
    ∧ 1 ≤ totalFiles inputs
    ∧ uploadFilesRun inputs spaceId folderId threads chunksize
        = UploadOutcome.spawned
            (uploadArgs (inputs.map LocalPath.pathOf) spaceId folderId threads chunksize)
    ∧ p ∈ uploadArgs (inputs.map LocalPath.pathOf) spaceId folderId threads chunksize := by
  have hone : 1 ≤ totalFiles inputs := by
    have hmem : pathContribution (LocalPath.statFail p) ∈ inputs.map pathContribution :=
      List.mem_map_of_mem pathContribution h
    have := List.single_le_sum (l := inputs.map pathContribution)
      (fun x _ => Nat.zero_le x) _ hmem
    simpa [pathContribution] using this
  refine ⟨rfl, rfl, hone, ?_, ?_⟩
  · simp [uploadFilesRun, Nat.not_eq_zero_of_lt hone]
  · have hp : p ∈ inputs.map LocalPath.pathOf := by
      have := List.mem_map_of_mem LocalPath.pathOf h
      simpa [LocalPath.pathOf] using this
    simp [uploadArgs, hp]

/-- Witness for C10: a single stat-failing path still spawns the upload. -/
theorem pfda_C10_witness :
    uploadFilesRun wInputsC10 none none none none
      = UploadOutcome.spawned
          (uploadArgs (wInputsC10.map LocalPath.pathOf) none none none none)
    ∧ "/data/missing.bin"
        ∈ uploadArgs (wInputsC10.map LocalPath.pathOf) none none none none :=
  ⟨(pfda_C10_stat_failure_counts_one wInputsC10 none none none none
      "/data/missing.bin" (by simp [wInputsC10])).2.2.2.1,
   (pfda_C10_stat_failure_counts_one wInputsC10 none none none none
      "/data/missing.bin" (by simp [wInputsC10])).2.2.2.2⟩

/-! ## Claim theorems for parent resolution -/

/-- C3 counterexample: a node carrying a stored parent back-reference but
whose parent path is not in the cache. The claimed behaviour returns the
stored back-reference; the implementation ignores it, derives the parent
path with dirname and scans the (here empty) cache, returning none. -/
theorem pfda_C3_counterexample :
    getParent [] wChildNode ≠ getParentClaimed [] wChildNode
    ∧ getParentClaimed [] wChildNode = some wParentNode
    ∧ getParent [] wChildNode = none := by
  have h1 : getParent [] wChildNode = none := rfl
  have h2 : getParentClaimed [] wChildNode = some wParentNode := rfl
  refine ⟨?_, h2, h1⟩
  rw [h1, h2]
  exact fun h => Option.noConfusion h

/-- C3 amended: `getParent` never consults the stored parent
back-reference — it always derives the parent path via dirname and scans
the cache, and returns none for a root-level node whose dirname equals its
own path. -/
theorem pfda_C3_getParent_amended (nodes : List PfdaNode) (element : PfdaNode) :
    getParent nodes element
      = (if dirname element.path = element.path then none
         else getNodeByPath nodes (dirname element.path))
    ∧ (∀ q : Option PfdaNode, getParent nodes (element.withParent q)
        = getParent nodes element)
    ∧ (dirname element.path = element.path → getParent nodes element = none) := by
  refine ⟨rfl, ?_, ?_⟩
  · intro q
    cases element
    rfl
  · intro h
    simp [getParent, h]

/-- Witness for the amended C3: overwriting the back-reference does not
change the result, and the root node resolves to none. -/
theorem pfda_C3_amended_witness :
    getParent [wParentNode] (wChildNode.withParent none)
      = getParent [wParentNode] wChildNode
    ∧ getParent [] wRootNode = none :=
  ⟨(pfda_C3_getParent_amended [wParentNode] wChildNode).2.1 none,
   (pfda_C3_getParent_amended [] wRootNode).2.2 rfl⟩

/-! ## Claim theorems for the drag-and-drop reconciler -/

/-- C4 counterexample: an internal drop of one source node onto the root
(absent target) issues zero move calls, not the one per source the claim
demands; the refresh still fires and no upload happens. -/
theorem pfda_C4_counterexample :
    (handleDrop (fun _ _ => true) true true none (fun s => s) none
        ⟨some [wChildNode], none⟩).moves.length ≠ 1
    ∧ (handleDrop (fun _ _ => true) true true none (fun s => s) none
        ⟨some [wChildNode], none⟩).moves = []
    ∧ (handleDrop (fun _ _ => true) true true none (fun s => s) none
        ⟨some [wChildNode], none⟩).refreshed = true := by
  exact ⟨by decide, rfl, rfl⟩

/-- C4 amended: for an internal tree-transfer payload, one move per source
(destination: target path joined with the source basename) is issued when
the target is a present directory, and none at all when the target is
absent (root) or not a directory; the attempted moves are independent of
individual failures (which only count error notifications); a refresh
always fires; and the upload pipeline is never invoked. -/
theorem pfda_C4_internal_drop_amended (moveOk : String → String → Bool)
    (confirm uploadOk : Bool) (space : Option String) (uriToPath : String → String)
    (target : Option PfdaNode) (dt : DataTransfer) (nodes : List PfdaNode)
    (h : dt.internalItem = some nodes) :
    (handleDrop moveOk confirm uploadOk space uriToPath target dt).uploaded = none
    ∧ (handleDrop moveOk confirm uploadOk space uriToPath target dt).refreshed = true
    ∧ (∀ t, target = some t → t.isDirectory = true →
        (handleDrop moveOk confirm uploadOk space uriToPath target dt).moves
          = nodes.map (fun n => (n.path, pathJoin t.path (basename n.path))))
    ∧ (target = none →
        (handleDrop moveOk confirm uploadOk space uriToPath target dt).moves = [])
    ∧ (∀ t, target = some t → t.isDirectory = false →
        (handleDrop moveOk confirm uploadOk space uriToPath target dt).moves = [])
    ∧ (handleDrop moveOk confirm uploadOk space uriToPath target dt).moves
        = (handleDrop (fun _ _ => true) confirm uploadOk space uriToPath target dt).moves
    ∧ (handleDrop moveOk confirm uploadOk space uriToPath target dt).moveFailures
        = ((handleDrop moveOk confirm uploadOk space uriToPath target dt).moves.filter
            (fun m => !(moveOk m.1 m.2))).length := by
  cases dt with
  | mk internalItem uriListItem =>
    cases h
    refine ⟨rfl, rfl, ?_, ?_, ?_, ?_, rfl⟩
    · intro t ht hdir
      subst ht
      simp [handleDrop, hdir]
    · intro ht
      subst ht
      rfl
    · intro t ht hdir
      subst ht
      simp [handleDrop, hdir]
    · cases target with
      | none => rfl
      | some t => by_cases hdir : t.isDirectory <;> simp [handleDrop, hdir]

/-- Witness for the amended C4: one source dropped on a directory target
yields exactly one move with the joined destination path, no upload, and a
refresh. -/
theorem pfda_C4_amended_witness :
    (handleDrop (fun _ _ => true) true true none (fun s => s) (some wTargetDir)
        ⟨some [wChildNode], none⟩).moves
      = [("/alpha/b.txt", pathJoin "/gamma" (basename "/alpha/b.txt"))]
    ∧ (handleDrop (fun _ _ => true) true true none (fun s => s) (some wTargetDir)
        ⟨some [wChildNode], none⟩).uploaded = none := by
  have h := pfda_C4_internal_drop_amended (fun _ _ => true) true true none
    (fun s => s) (some wTargetDir) ⟨some [wChildNode], none⟩ [wChildNode] rfl
  refine ⟨?_, h.1⟩
  have hm := h.2.2.1 wTargetDir rfl rfl
  simpa [wTargetDir, wChildNode, PfdaNode.path] using hm

/-! ## Lemmas about the path model -/

lemma splitSlash_ne_nil (l : List Char) : splitSlash l ≠ [] := by
  cases l with
  | nil => simp [splitSlash]
  | cons c cs =>
    simp only [splitSlash]
    split <;> simp

lemma splitSlash_append (a b : List Char) :
    splitSlash (a ++ '/' :: b) = splitSlash a ++ splitSlash b := by
  induction a with
  | nil => simp [splitSlash]
  | cons c cs ih =>
    cases hsp : splitSlash cs with
    | nil => exact absurd hsp (splitSlash_ne_nil cs)
    | cons s t =>
      by_cases h : c = '/' <;>
        simp [splitSlash, ih, hsp, h]

lemma joinSegs_splitSlash (l : List Char) : joinSegs (splitSlash l) = l := by
  induction l with
  | nil => simp [splitSlash, joinSegs]
  | cons c cs ih =>
    cases hsp : splitSlash cs with
    | nil => exact absurd hsp (splitSlash_ne_nil cs)
    | cons s t =>
      rw [hsp] at ih
      by_cases h : c = '/'
      · subst h
        simp [splitSlash, hsp, joinSegs, ih]
      · cases t with
        | nil => simp_all [splitSlash, hsp, joinSegs, h]
        | cons u t' => simp_all [splitSlash, hsp, joinSegs, h]

lemma joinSegs_single (s : List Char) : joinSegs [s] = s := rfl

lemma joinSegs_cons₂ (s u : List Char) (t : List (List Char)) :
    joinSegs (s :: u :: t) = s ++ '/' :: joinSegs (u :: t) := rfl

lemma normAcc_nil (ab : Bool) (acc : List (List Char)) :
    normAcc ab acc [] = acc.reverse := rfl

lemma normAcc_push (ab : Bool) (acc : List (List Char)) (s : List Char)
    (rest : List (List Char)) (h1 : s ≠ []) (h2 : s ≠ ['.']) (h3 : s ≠ ['.', '.']) :
    normAcc ab acc (s :: rest) = normAcc ab (s :: acc) rest := by
  rw [normAcc.eq_def]
  simp only [if_neg (by simp [h1, h2] : ¬(s = [] ∨ s = ['.'])), if_neg h3]

lemma normAcc_skip (ab : Bool) (acc : List (List Char)) (s : List Char)
    (rest : List (List Char)) (h : s = [] ∨ s = ['.']) :
    normAcc ab acc (s :: rest) = normAcc ab acc rest := by
  rw [normAcc.eq_def]
  simp only [if_pos h]

lemma normAcc_append_good (ab : Bool) (l₁ l₂ acc : List (List Char))
    (h : l₁.all goodSegB = true) :
    normAcc ab acc (l₁ ++ l₂) = normAcc ab (l₁.reverse ++ acc) l₂ := by
  induction l₁ generalizing acc with
  | nil => simp
  | cons s t ih =>
    simp only [List.all_cons, Bool.and_eq_true] at h
    obtain ⟨hs, ht⟩ := h
    simp only [goodSegB, Bool.and_eq_true, bne_iff_ne, ne_eq] at hs
    obtain ⟨⟨h1, h2⟩, h3⟩ := hs
    rw [List.cons_append, normAcc_push ab acc s _ h1 h2 h3, ih (s :: acc) ht]
    congr 1
    simp

lemma normAcc_no_dots (ab : Bool) (l acc : List (List Char))
    (h : l.all (fun s => s != ['.'] && s != ['.', '.']) = true) :
    normAcc ab acc l = acc.reverse ++ l.filter (fun s => s != []) := by
  induction l generalizing acc with
  | nil => simp [normAcc_nil]
  | cons s t ih =>
    simp only [List.all_cons, Bool.and_eq_true, bne_iff_ne, ne_eq] at h
    obtain ⟨⟨h1, h2⟩, ht⟩ := h
    by_cases hs : s = []
    · rw [hs, normAcc_skip ab acc [] t (Or.inl rfl),
        ih acc (by simpa using ht)]
      simp
    · rw [normAcc_push ab acc s t hs h1 h2, ih (s :: acc) (by simpa using ht)]
      simp [List.filter_cons, hs]

lemma joinSegs_ne_nil_of_head (s : List Char) (t : List (List Char)) (hs : s ≠ []) :
    joinSegs (s :: t) ≠ [] := by
  cases t <;> simp [joinSegs, hs]

lemma joinSegs_append (A B : List (List Char)) (hA : A ≠ []) (hB : B ≠ []) :
    joinSegs (A ++ B) = joinSegs A ++ '/' :: joinSegs B := by
  induction A with
  | nil => exact absurd rfl hA
  | cons s t ih =>
    cases t with
    | nil =>
      rcases B with _ | ⟨b, bs⟩
      · exact absurd rfl hB
      · rw [List.singleton_append, joinSegs_cons₂, joinSegs_single]
    | cons u t' =>
      calc joinSegs ((s :: u :: t') ++ B)
          = s ++ '/' :: joinSegs ((u :: t') ++ B) := by
            rw [List.cons_append, List.cons_append, joinSegs_cons₂,
              ← List.cons_append]
        _ = s ++ '/' :: (joinSegs (u :: t') ++ '/' :: joinSegs B) := by
            rw [ih (by simp)]
        _ = joinSegs (s :: u :: t') ++ '/' :: joinSegs B := by
            rw [joinSegs_cons₂]
            simp

lemma isPrefixOf_append_self (l t : List Char) : l.isPrefixOf (l ++ t) = true := by
  induction l with
  | nil => simp [List.isPrefixOf]
  | cons c cs ih => simp [List.isPrefixOf, ih]

lemma jsStartsWith_of_data (s pre : String) (t : List Char)
    (h : s.data = pre.data ++ t) : jsStartsWith s pre = true := by
  rw [jsStartsWith, h]
  exact isPrefixOf_append_self pre.data t

lemma slash_data : ("/" : String).data = ['/'] := rfl

/-- Evaluation of the normaliser on a string known to be absolute. -/
lemma normalizePath_abs (q : String) (tail : List Char) (hq : q.data = '/' :: tail) :
    normalizePath q =
      (if joinSegs (normAcc false [] (splitSlash ('/' :: tail))) = [] then "/"
       else if ('/' :: tail).getLast? = some '/' then
         String.mk ('/' :: (joinSegs (normAcc false [] (splitSlash ('/' :: tail))) ++ ['/']))
       else String.mk ('/' :: joinSegs (normAcc false [] (splitSlash ('/' :: tail))))) := by
  unfold normalizePath
  rw [hq]
  simp
  split
  · rfl
  · split <;> rfl

/-- The central fact behind C6: joining a plain raw path onto a normalised
absolute parent path yields a path whose characters extend the parent's. -/
lemma pathJoin_data_extends (pp raw : String) (hpp : isNormalAbs pp = true)
    (hraw : rawSegsOk raw = true) (hr : raw ≠ "") :
    ∃ t : List Char, (pathJoin pp raw).data = pp.data ++ t := by
  rcases hq : pp.data with _ | ⟨c, rest⟩
  · rw [isNormalAbs, hq] at hpp
    simp at hpp
  · rw [isNormalAbs, hq] at hpp
    simp only [Bool.and_eq_true, beq_iff_eq, bne_iff_ne, ne_eq] at hpp
    obtain ⟨⟨hc, hne⟩, hall⟩ := hpp
    subst hc
    have hpne : pp ≠ "" := by
      intro h
      rw [h] at hq
      exact absurd hq (by simp)
    have hdata : (pp ++ "/" ++ raw).data = '/' :: (rest ++ '/' :: raw.data) := by
      rw [String.data_append, String.data_append, hq, slash_data]
      simp
    rw [pathJoin, if_neg hpne, if_neg hr,
      normalizePath_abs _ (rest ++ '/' :: raw.data) hdata]
    have hsplit : splitSlash ('/' :: (rest ++ '/' :: raw.data))
        = [] :: (splitSlash rest ++ splitSlash raw.data) := by
      simp [splitSlash, splitSlash_append]
    have hPP : splitSlash rest ≠ [] := splitSlash_ne_nil rest
    have hjoin : joinSegs (splitSlash rest) = rest := joinSegs_splitSlash rest
    have hsegs : normAcc false [] (splitSlash ('/' :: (rest ++ '/' :: raw.data)))
        = splitSlash rest ++ (splitSlash raw.data).filter (fun s => s != []) := by
      rw [hsplit, normAcc_skip false [] [] _ (Or.inl rfl),
        normAcc_append_good false _ _ [] hall,
        normAcc_no_dots false _ _ (by simpa [rawSegsOk] using hraw)]
      simp
    rcases hsRcase : (splitSlash raw.data).filter (fun s => s != []) with _ | ⟨r0, rs⟩
    · -- the raw path contributes no nonempty segment: the result is the
      -- parent itself, possibly with a trailing slash
      have hbody : joinSegs (normAcc false [] (splitSlash ('/' :: (rest ++ '/' :: raw.data))))
          = rest := by
        rw [hsegs, hsRcase, List.append_nil, hjoin]
      rw [hbody, if_neg hne]
      by_cases htr : ('/' :: (rest ++ '/' :: raw.data)).getLast? = some '/'
      · rw [if_pos htr]
        exact ⟨['/'], by simp [hq]⟩
      · rw [if_neg htr]
        exact ⟨[], by simp [hq]⟩
    · -- the raw path contributes segments: the result is the parent, a
      -- slash, and the joined raw segments
      have hbody : joinSegs (normAcc false [] (splitSlash ('/' :: (rest ++ '/' :: raw.data))))
          = rest ++ '/' :: joinSegs (r0 :: rs) := by
        rw [hsegs, hsRcase, joinSegs_append _ _ hPP (by simp), hjoin]
      have hbne : rest ++ '/' :: joinSegs (r0 :: rs) ≠ [] := by simp
      rw [hbody, if_neg hbne]
      by_cases htr : ('/' :: (rest ++ '/' :: raw.data)).getLast? = some '/'
      · rw [if_pos htr]
        exact ⟨'/' :: (joinSegs (r0 :: rs) ++ ['/']), by simp [hq]⟩
      · rw [if_neg htr]
        exact ⟨'/' :: joinSegs (r0 :: rs), by simp [hq]⟩

/-- Joining a plain raw path onto a valid parent path produces a path that
starts with the parent path. -/
lemma jsStartsWith_pathJoin (pp raw : String) (hpp : isNormalAbs pp = true)
    (hraw : rawSegsOk raw = true) (hr : raw ≠ "") :
    jsStartsWith (pathJoin pp raw) pp = true := by
  obtain ⟨t, ht⟩ := pathJoin_data_extends pp raw hpp hraw hr
  exact jsStartsWith_of_data _ _ t ht


lemma effectiveRaw_ne_empty (it : ListItem) (raw : String)
    (h : effectiveRaw it = some raw) : raw ≠ "" := by
  rw [effectiveRaw] at h
  rcases hp : it.path with _ | p
  · rw [hp] at h
    simp [truthy] at h
    rcases h with ⟨hn, hr⟩
    rw [hr] at hn
    exact fun he => hn (by rw [← he, he])
  · rw [hp] at h
    by_cases hpe : p = ""
    · rw [hpe] at h
      simp [truthy] at h
      rcases h with ⟨hn, hr⟩
      rw [hr] at hn
      intro he
      exact hn (by rw [← he])
    · simp [truthy, hpe] at h
      rw [← h]
      exact hpe

/-- C6: converting a valid listing with a supplied normalised non-empty
parent path, every produced node's path starts with the parent path; a raw
reported path already prefixed by the parent is kept unchanged (no second
prefix is added), and any other raw path gets the parent path joined in
front of it. -/
theorem pfda_C6_path_under_parent (items : List ListItem) (pp : String)
    (pn : Option PfdaNode) (hpp : isNormalAbs pp = true)
    (hitems : itemsRawOk items = true) :
    (∀ nd ∈ buildNodesFromListing items pp pn, jsStartsWith nd.path pp = true)
    ∧ (∀ raw : String, raw ≠ "" → rawSegsOk raw = true →
        (jsStartsWith raw pp = true → computePath pp raw = raw)
        ∧ (jsStartsWith raw pp = false → computePath pp raw = pathJoin pp raw)
        ∧ jsStartsWith (computePath pp raw) pp = true) := by
  have hpne : pp ≠ "" := by
    intro h
    rw [isNormalAbs, h] at hpp
    simp at hpp
  have hsingle : ∀ raw : String, raw ≠ "" → rawSegsOk raw = true →
      (jsStartsWith raw pp = true → computePath pp raw = raw)
      ∧ (jsStartsWith raw pp = false → computePath pp raw = pathJoin pp raw)
      ∧ jsStartsWith (computePath pp raw) pp = true := by
    intro raw hr hok
    refine ⟨?_, ?_, ?_⟩
    · intro hsw
      rw [computePath, if_pos hpne, if_pos hsw]
    · intro hsw
      rw [computePath, if_pos hpne, if_neg (by simp [hsw])]
    · by_cases hsw : jsStartsWith raw pp = true
      · rw [computePath, if_pos hpne, if_pos hsw]
        exact hsw
      · rw [computePath, if_pos hpne, if_neg hsw]
        exact jsStartsWith_pathJoin pp raw hpp hok hr
  refine ⟨?_, hsingle⟩
  induction items with
  | nil => intro nd hnd; simp [buildNodesFromListing] at hnd
  | cons it rest ih =>
    simp only [itemsRawOk, List.all_cons, Bool.and_eq_true] at hitems
    obtain ⟨hit, hrest⟩ := hitems
    intro nd hnd
    rw [buildNodesFromListing] at hnd
    rcases hr : effectiveRaw it with _ | raw
    · rw [hr] at hnd
      exact ih hrest nd hnd
    · rw [hr] at hnd
      rcases List.mem_cons.mp hnd with hhead | htail
      · subst hhead
        have hrawok : rawSegsOk raw = true := by
          rw [hr] at hit
          exact hit
        have hrne : raw ≠ "" := effectiveRaw_ne_empty it raw hr
        simpa [PfdaNode.path] using (hsingle raw hrne hrawok).2.2
      · exact ih hrest nd htail

/-- Witness for C6: with the parent `/alpha`, a bare file name is joined
below the parent and the result starts with the parent path. -/
theorem pfda_C6_witness :
    computePath "/alpha" "c.txt" = pathJoin "/alpha" "c.txt"
    ∧ jsStartsWith (computePath "/alpha" "c.txt") "/alpha" = true := by
  have h := (pfda_C6_path_under_parent wItemsC6 "/alpha" none (by decide)
    (by decide)).2 "c.txt" (by decide) (by decide)
  exact ⟨h.2.1 (by decide), h.2.2⟩

/-! ## Claim theorems for the space qualifier -/

lemma mem_spaceQualA (sp : Option String) :
    ("-space-id" ∈ spaceQualA sp) ↔ activeNonHome sp = true := by
  cases sp with
  | none => simp [spaceQualA, activeNonHome]
  | some s =>
    by_cases h1 : s = ""
    · simp [spaceQualA, activeNonHome, h1]
    · by_cases h2 : s = "my-home" <;>
        simp [spaceQualA, activeNonHome, h1, h2]

lemma spaceQualA_eq_spaceQualB (sp : Option String) : spaceQualA sp = spaceQualB sp := by
  cases sp with
  | none => rfl
  | some s =>
    by_cases h1 : s = "my-home" <;> by_cases h2 : s = "" <;>
      simp [spaceQualA, spaceQualB, h1, h2]

lemma mem_spaceQualB (sp : Option String) :
    ("-space-id" ∈ spaceQualB sp) ↔ activeNonHome sp = true := by
  rw [← spaceQualA_eq_spaceQualB]
  exact mem_spaceQualA sp

/-- C9: for every remote operation — listing (root and folder), upload,
delete (listing, file rm, directory rmdir, interactive rm), download,
mkdir, cat and head — the `-space-id` qualifier appears in the argument
list exactly when an active space context is set (truthy) and is not the
default home space `my-home`; both qualifier-building patterns in the
source agree, and the home context is addressed by omitting the qualifier
entirely (the qualifier segment is empty, never an empty or sentinel
value). -/
theorem pfda_C9_space_qualifier (sp : Option String)
    (filePaths defaultParams : List String) (folderId : Option String)
    (threads chunksize : Option Nat) (dirId itemId nodeId outputDir dirName : String)
    (parentFolderId : Option String)
    (h1 : "-space-id" ∉ filePaths) (h2 : "-space-id" ∉ defaultParams)
    (h3 : "-space-id" ∉ folderQual folderId)
    (h4 : "-space-id" ∉ threadsQual threads)
    (h5 : "-space-id" ∉ chunksizeQual chunksize)
    (h6 : dirId ≠ "-space-id") (h7 : itemId ≠ "-space-id")
    (h8 : nodeId ≠ "-space-id") (h9 : outputDir ≠ "-space-id")
    (h10 : dirName ≠ "-space-id") (h11 : parentFolderId ≠ some "-space-id") :
    ("-space-id" ∈ uploadArgs filePaths sp folderId threads chunksize
      ↔ activeNonHome sp = true)
    ∧ ("-space-id" ∈ deleteLsArgs dirId sp ↔ activeNonHome sp = true)
    ∧ ("-space-id" ∈ deleteRmArgs itemId sp ↔ activeNonHome sp = true)
    ∧ ("-space-id" ∈ deleteRmdirArgs dirId sp ↔ activeNonHome sp = true)
    ∧ ("-space-id" ∈ lsRootArgs defaultParams sp ↔ activeNonHome sp = true)
    ∧ ("-space-id" ∈ lsFolderArgs defaultParams dirId sp ↔ activeNonHome sp = true)
    ∧ ("-space-id" ∈ downloadArgs nodeId outputDir sp ↔ activeNonHome sp = true)
    ∧ ("-space-id" ∈ mkdirArgs dirName parentFolderId sp ↔ activeNonHome sp = true)
    ∧ ("-space-id" ∈ removeFileArgs nodeId sp ↔ activeNonHome sp = true)
    ∧ ("-space-id" ∈ catArgs nodeId sp ↔ activeNonHome sp = true)
    ∧ ("-space-id" ∈ headArgs nodeId sp ↔ activeNonHome sp = true)
    ∧ spaceQualA sp = spaceQualB sp
    ∧ (activeNonHome sp = false → spaceQualA sp = [] ∧ spaceQualB sp = []) := by
  have hA := mem_spaceQualA sp
  have hB := mem_spaceQualB sp
  have hmk : "-space-id" ∉ (match parentFolderId with
      | some f => ["-folder-id", f]
      | none => ([] : List String)) := by
    cases hpf : parentFolderId with
    | none => simp
    | some f =>
      simp only [List.mem_cons, List.not_mem_nil]
      rintro (hx | hx | hx)
      · exact absurd hx.symm (by decide)
      · exact h11 (by rw [hpf, ← hx])
      · simp at hx
  refine ⟨?_, ?_, ?_, ?_, ?_, ?_, ?_, ?_, ?_, ?_, ?_,
    spaceQualA_eq_spaceQualB sp, ?_⟩
  · simp [uploadArgs, List.mem_append, h1, h3, h4, h5, hA]
  · simp [deleteLsArgs, List.mem_append, h6, Ne.symm h6, hA]
  · simp [deleteRmArgs, List.mem_append, h7, Ne.symm h7, hA]
  · simp [deleteRmdirArgs, List.mem_append, h6, Ne.symm h6, hA]
  · simp [lsRootArgs, List.mem_append, h2, hB]
  · simp [lsFolderArgs, List.mem_append, h2, h6, Ne.symm h6, hB]
  · simp [downloadArgs, List.mem_append, h8, Ne.symm h8, h9, Ne.symm h9, hB]
  · by_cases hsep : containsSep dirName = true <;>
      simp [mkdirArgs, List.mem_append, h10, Ne.symm h10, hmk, hsep, hB]
  · simp [removeFileArgs, List.mem_append, h8, Ne.symm h8, hB]
  · simp [catArgs, List.mem_append, h8, Ne.symm h8, hB]
  · simp [headArgs, List.mem_append, h8, Ne.symm h8, hB]
  · intro hoff
    have hqa : spaceQualA sp = [] := by
      rcases hq : spaceQualA sp with _ | ⟨x, xs⟩
      · rfl
      · exfalso
        cases sp with
        | none => simp [spaceQualA] at hq
        | some s =>
          rw [spaceQualA] at hq
          by_cases hcond : s ≠ "" ∧ s ≠ "my-home"
          · rw [activeNonHome] at hoff
            rcases hcond with ⟨hs1, hs2⟩
            simp [hs1, hs2] at hoff
          · rw [if_neg hcond] at hq
            exact List.noConfusion hq
    exact ⟨hqa, by rw [← spaceQualA_eq_spaceQualB]; exact hqa⟩

/-- Witness for C9: with the active space `s7` the qualifier is present in
the upload and listing argument lists; with `my-home` it is absent. -/
theorem pfda_C9_witness :
    ("-space-id" ∈ uploadArgs ["a.txt"] (some "s7") none none none
      ↔ activeNonHome (some "s7") = true)
    ∧ ("-space-id" ∈ lsRootArgs ["-skipverify", "true"] (some "my-home")
      ↔ activeNonHome (some "my-home") = true) :=
  ⟨(pfda_C9_space_qualifier (some "s7") ["a.txt"] ["-skipverify", "true"] none none none
      "11" "file-9" "file-9" "/tmp/out" "newdir" none
      (by decide) (by decide) (by decide) (by decide) (by decide) (by decide)
      (by decide) (by decide) (by decide) (by decide) (by decide)).1,
   (pfda_C9_space_qualifier (some "my-home") ["a.txt"] ["-skipverify", "true"] none none
      none "11" "file-9" "file-9" "/tmp/out" "newdir" none
      (by decide) (by decide) (by decide) (by decide) (by decide) (by decide)
      (by decide) (by decide) (by decide) (by decide) (by decide)).2.2.2.2.1⟩

end Pfda
